import Mathlib

/-!
Shallow embedding of `src/embedder.js` (Solgrid pixel-art embedder):
the rate limiter (`safeDelay` / `recordRequest`), the checkpoint store
(`saveProgress` / `loadProgress` / `clearProgress`), the dispatch loop
(`processQueue`), session management (`embedImageStart`, `resumeEmbedding`,
`clearSession`) and `getStatus`.

Modelling conventions:
* wall-clock reads (`Date.now()`) are an explicit `clock : Int` field
  (milliseconds), and `await this.sleep(ms)` advances `clock` by exactly `ms`;
* the `localStorage` slot `pixelEmbedder_progress` is a `store : Option Progress`
  field (parsed form; the JSON round trip is assumed faithful);
* the DOM credit scrape of `getCurrentCredits` is an input `dom : Option Int`;
* one `placePixel` settlement is an input `StepIn`: the random extra delay of
  `safeDelay` (`Math.random() * 100 + 50`, so in `[50, 150)`), the latency
  between dispatch and settlement, and the settlement result;
* the fields `sends` and `records` are observation traces (the instants at
  which `safeDelay` returned and a pixel was dispatched, and the instants at
  which `recordRequest` stamped a confirmed success).  No source logic reads
  them; they exist only so that properties of a run can be stated.
-/

namespace Solgrid

/-- One pixel operation, as produced by `loadImage` and consumed by
`placePixel(x, y, color)`. -/
structure Pixel where
  x : Int
  y : Int
  color : String
deriving DecidableEq

/-- The checkpoint record written by `saveProgress` (the `progressData`
object stored under `pixelEmbedder_progress`). -/
structure Progress where
  sessionId : String
  queue : List Pixel
  originalPixels : List Pixel
  pixelsPlaced : Nat
  errors : Nat
  timestamp : Int
  isActive : Bool
deriving DecidableEq

/-- The mutable state of one `OptimizedPixelEmbedder` instance, together with
the modelled environment (`store`, `clock`) and the observation traces
(`sends`, `records`). -/
structure Embedder where
  queue : List Pixel
  isPlacing : Bool
  pixelsPlaced : Nat
  errors : Nat
  currentCredits : Option Int
  sessionId : Option String
  originalPixels : List Pixel
  currentTier : String
  burstTracker : List Int
  requestTimes : List Int
  lastRequestTime : Option Int
  store : Option Progress
  clock : Int
  sends : List Int
  records : List Int
deriving DecidableEq

/-- `this.universalDelay = 400` (also `baseDelay`): minimum spacing in ms. -/
def universalDelay : Int := 400

/-- `this.burstLimit = 15`: burst quota per window. -/
def burstLimit : Nat := 15

/-- `this.burstWindow = 10000`: burst window length in ms. -/
def burstWindow : Int := 10000

/-- `this.burstSafetyBuffer = 2000`: extra wait after the window, in ms. -/
def burstSafetyBuffer : Int := 2000

/-- `l.filter(time => now - time < w)`: lazy eviction of old timestamps. -/
def evict (w now : Int) (l : List Int) : List Int :=
  l.filter (fun t => decide (now - t < w))

/-- `Math.min(...list)` over a nonempty list, written as a fold with the first
element as the accumulator seed. -/
def listMin : Int → List Int → Int
  | m, [] => m
  | m, t :: ts => listMin (min m t) ts

/-- The burst-protection block of `safeDelay`: if the (already evicted) burst
log holds at least `burstLimit` entries, wait until the oldest entry leaves
the window plus the safety buffer, then re-evict at the wake time.  Returns
the resulting burst log and the current time on exit. -/
def burstPhase (now : Int) (bt : List Int) : List Int × Int :=
  if burstLimit ≤ bt.length then
    match bt with
    | [] => (bt, now)
    | t :: ts =>
      let oldestBurst := listMin t ts
      let timeToWait := burstWindow - (now - oldestBurst) + burstSafetyBuffer
      if 0 < timeToWait then
        (evict burstWindow (now + timeToWait) bt, now + timeToWait)
      else (bt, now)
  else (bt, now)

/-- The minimum-spacing block of `safeDelay`: how long to sleep given the
entry time `now` and `this.lastRequestTime`.  The source reads `now` captured
at entry (not the time after the burst wait), which is mirrored here. -/
def spacingWait (now : Int) : Option Int → Int
  | none => 0
  | some last =>
    if now - last < universalDelay then universalDelay - (now - last) else 0

/-- `safeDelay()` with a given random extra delay (`jitter`): evict both logs
at the entry time, run the burst-protection wait, the minimum-spacing wait
and the jitter sleep, and stamp `lastRequestTime` with the exit time. -/
def safeDelay (e : Embedder) (jitter : Int) : Embedder :=
  let now := e.clock
  let bp := burstPhase now (evict burstWindow now e.burstTracker)
  let ret := bp.2 + spacingWait now e.lastRequestTime + jitter
  { e with requestTimes := evict 60000 now e.requestTimes,
           burstTracker := bp.1,
           lastRequestTime := some ret,
           clock := ret }

/-- `recordRequest()`: push the current time onto both logs, then evict. -/
def recordRequest (e : Embedder) : Embedder :=
  let now := e.clock
  { e with requestTimes := evict 60000 now (e.requestTimes ++ [now]),
           burstTracker := evict burstWindow now (e.burstTracker ++ [now]) }

/-- `saveProgress()`: a no-op when `this.sessionId` is unset, otherwise the
snapshot written to the store. -/
def saveProgress (e : Embedder) : Option Progress :=
  match e.sessionId with
  | none => e.store
  | some sid =>
    some { sessionId := sid, queue := e.queue, originalPixels := e.originalPixels,
           pixelsPlaced := e.pixelsPlaced, errors := e.errors,
           timestamp := e.clock, isActive := e.isPlacing }

/-- 24 hours in milliseconds.  The source tests
`(Date.now() - data.timestamp) / (1000 * 60 * 60) > 24` with exact (float)
division, which for integer millisecond values is equivalent to
`Date.now() - data.timestamp > 24 * 3600000`. -/
def expiryMs : Int := 24 * 3600000

/-- `loadProgress()`: read the store; a record whose timestamp is more than
24 hours old is cleared (`clearProgress`) and reported absent. -/
def loadProgress (e : Embedder) : Embedder × Option Progress :=
  match e.store with
  | none => (e, none)
  | some d =>
    if expiryMs < e.clock - d.timestamp then ({ e with store := none }, none)
    else (e, some d)

/-- `clearProgress()`: remove the stored record. -/
def clearProgress (e : Embedder) : Embedder :=
  { e with store := none }

/-- `clearSession()`: clear the store and reset the in-memory session. -/
def clearSession (e : Embedder) : Embedder :=
  { clearProgress e with queue := [], originalPixels := [], pixelsPlaced := 0,
                         errors := 0, sessionId := none, isPlacing := false }

/-- `getCurrentCredits()`: the DOM scrape is the input `dom`; when a credit
amount is found the cached `this.currentCredits` field is overwritten,
otherwise the method returns `null` leaving the field alone. -/
def getCurrentCredits (e : Embedder) (dom : Option Int) : Embedder × Option Int :=
  match dom with
  | some v => ({ e with currentCredits := some v }, some v)
  | none => (e, none)

/-- The record returned by `getStatus()`. -/
structure Status where
  isPlacing : Bool
  queueLength : Nat
  originalPixelsCount : Nat
  pixelsPlaced : Nat
  errors : Nat
  currentRate : Nat
  tier : String
  burstUsed : Nat
  burstLimit : Nat
  credits : Option Int
  delay : Int
  sessionId : Option String
  hasResumableSession : Bool
deriving DecidableEq

/-- `getStatus()`: computes the burst usage, calls `getCurrentCredits()`
(which may overwrite the cached credits field) and `loadProgress()` (which
may clear an expired record), and assembles the status object.  Returns the
resulting embedder state together with the status. -/
def getStatus (e : Embedder) (dom : Option Int) : Embedder × Status :=
  let burstUsed := (e.burstTracker.filter (fun t => decide (e.clock - t < burstWindow))).length
  let cc := getCurrentCredits e dom
  let lp := loadProgress cc.1
  (lp.1,
   { isPlacing := e.isPlacing, queueLength := e.queue.length,
     originalPixelsCount := e.originalPixels.length, pixelsPlaced := e.pixelsPlaced,
     errors := e.errors, currentRate := e.requestTimes.length, tier := e.currentTier,
     burstUsed := burstUsed, burstLimit := burstLimit, credits := cc.2,
     delay := universalDelay, sessionId := e.sessionId,
     hasResumableSession := lp.2.isSome })

/-- The classified settlement of one `placePixel` attempt, matching the
`catch` classification in `processQueue`: confirmed success, a message
containing `burst limit`, a message containing `rate` or `limit`, a message
containing `credit`, or anything else. -/
inductive SendRes
  | ok
  | errBurst
  | errRate
  | errCredit
  | errOther
deriving DecidableEq

/-- The environment inputs for one loop iteration of `processQueue`. -/
structure StepIn where
  jitter : Int
  latency : Int
  res : SendRes
deriving DecidableEq

/-- One iteration of the `while` body of `processQueue`, given that the loop
guard held: shift the head pixel, run `safeDelay`, let `placePixel` settle
after `latency` ms, then either record the success (`recordRequest` runs in
the success handler), bump `pixelsPlaced` and checkpoint every 10th success;
or bump `errors`, checkpoint, and apply the classified cooldown
(`burst limit`: clear the burst log and sleep 15 s; `rate`/`limit`: sleep
10 s; `credit`: stop the run; otherwise sleep 1 s). -/
def procStep (e : Embedder) (i : StepIn) : Embedder :=
  match e.queue with
  | [] => e
  | _px :: rest =>
    let e1 := safeDelay { e with queue := rest } i.jitter
    let e2 := { e1 with clock := e1.clock + i.latency }
    match i.res with
    | .ok =>
      let e3 := recordRequest e2
      let e4 := { e3 with pixelsPlaced := e3.pixelsPlaced + 1,
                          sends := e3.sends ++ [e1.clock],
                          records := e3.records ++ [e2.clock] }
      if e4.pixelsPlaced % 10 = 0 then { e4 with store := saveProgress e4 } else e4
    | .errBurst =>
      let e3 := { e2 with errors := e2.errors + 1, sends := e2.sends ++ [e1.clock] }
      let e4 := { e3 with store := saveProgress e3 }
      { e4 with burstTracker := [], clock := e4.clock + 15000 }
    | .errRate =>
      let e3 := { e2 with errors := e2.errors + 1, sends := e2.sends ++ [e1.clock] }
      let e4 := { e3 with store := saveProgress e3 }
      { e4 with clock := e4.clock + 10000 }
    | .errCredit =>
      let e3 := { e2 with errors := e2.errors + 1, sends := e2.sends ++ [e1.clock] }
      let e4 := { e3 with store := saveProgress e3 }
      { e4 with isPlacing := false }
    | .errOther =>
      let e3 := { e2 with errors := e2.errors + 1, sends := e2.sends ++ [e1.clock] }
      let e4 := { e3 with store := saveProgress e3 }
      { e4 with clock := e4.clock + 1000 }

/-- The `while (this.queue.length > 0 && this.isPlacing)` loop of
`processQueue`, driven by one `StepIn` per iteration (the loop runs at most
`queue.length` iterations, so any sufficiently long input list covers a
complete run). -/
def runIters (e : Embedder) : List StepIn → Embedder
  | [] => e
  | i :: is =>
    if e.queue.isEmpty ∨ e.isPlacing = false then e
    else runIters (procStep e i) is

/-- The epilogue of `processQueue` after the loop exits: drop the running
flag, then clear the checkpoint when the queue drained completely, otherwise
save the final state. -/
def finish (e : Embedder) : Embedder :=
  let e1 := { e with isPlacing := false }
  if e1.queue.isEmpty then { e1 with store := none }
  else { e1 with store := saveProgress e1 }

/-- `processQueue()`: loop then epilogue. -/
def processQueue (e : Embedder) (is : List StepIn) : Embedder :=
  finish (runIters e is)

/-- The session-creating tail of `embedImage(pixels)` (after the pre-flight
checks succeed): generate a session id, store the original list, reset the
counters, the burst log and `lastRequestTime`, load the queue, set the
running flag and write the initial checkpoint.  The observation traces are
reset here because they observe exactly one run. -/
def embedImageStart (e : Embedder) (pixels : List Pixel) (sid : String) : Embedder :=
  let e1 := { e with sessionId := some sid, originalPixels := pixels,
                     pixelsPlaced := 0, errors := 0, burstTracker := [],
                     lastRequestTime := none, queue := pixels, isPlacing := true,
                     sends := [], records := [] }
  { e1 with store := saveProgress e1 }

/-- A complete dispatch run: `embedImage` start followed by `processQueue`. -/
def embedImageRun (e : Embedder) (pixels : List Pixel) (sid : String)
    (is : List StepIn) : Embedder :=
  processQueue (embedImageStart e pixels sid) is

/-- `resumeEmbedding()`: load the checkpoint; refuse when it is absent or its
queue is empty, or when a run is already active; otherwise restore the
session state, and if the user confirms (`proceed`), set the running flag and
drain the queue.  Returns the resulting state and the boolean result. -/
def resumeEmbedding (e : Embedder) (proceed : Bool) (is : List StepIn) :
    Embedder × Bool :=
  let lp := loadProgress e
  match lp.2 with
  | none => (lp.1, false)
  | some saved =>
    if saved.queue.isEmpty then (lp.1, false)
    else if lp.1.isPlacing then (lp.1, false)
    else
      let e2 := { lp.1 with sessionId := some saved.sessionId, queue := saved.queue,
                            originalPixels := saved.originalPixels,
                            pixelsPlaced := saved.pixelsPlaced, errors := saved.errors }
      if proceed then (processQueue { e2 with isPlacing := true } is, true)
      else (e2, false)

/-- `WB R`: any `burstLimit + 1` = 16 entries of the trace `R` that are 15
apart span at least the burst window.  On a strictly increasing trace this is
exactly the statement that no half-open window of length `burstWindow`
contains more than `burstLimit` entries (`window_count_of_WB`). -/
def WB (R : List Int) : Prop :=
  ∀ i (h : i + burstLimit < R.length),
    R.get ⟨i, by omega⟩ + burstWindow ≤ R.get ⟨i + burstLimit, h⟩

/-- The instant at which `safeDelay` returns in one loop iteration and the
pixel is dispatched. -/
def dispatchTime (e : Embedder) (i : StepIn) : Int := (safeDelay e i.jitter).clock

/-- The instant at which the dispatched `placePixel` settles. -/
def settleTime (e : Embedder) (i : StepIn) : Int := dispatchTime e i + i.latency

/-- Invariant over the limiter state and the observation traces, maintained
by every iteration of the dispatch loop. -/
structure Inv (e : Embedder) : Prop where
  rec_sorted : e.records.Pairwise (· < ·)
  rec_le : ∀ r ∈ e.records, r ≤ e.clock
  bt_suffix : e.burstTracker <:+ e.records
  bt_len : e.burstTracker.length ≤ burstLimit
  bt_complete : ∀ r ∈ e.records, e.clock - r < burstWindow → r ∈ e.burstTracker
  wb : WB e.records
  last_eq : e.lastRequestTime = e.sends.getLast?
  sends_gap : e.sends.Chain' (fun a b => a + universalDelay ≤ b)
  sends_le : ∀ s ∈ e.sends, s ≤ e.clock

/-! ### Concrete fixtures -/

/-- The state of a freshly constructed `OptimizedPixelEmbedder` at a given
wall-clock instant. -/
def mkEmbedder (clock : Int) : Embedder :=
  { queue := [], isPlacing := false, pixelsPlaced := 0, errors := 0,
    currentCredits := none, sessionId := none, originalPixels := [],
    currentTier := "Standard", burstTracker := [], requestTimes := [],
    lastRequestTime := none, store := none, clock := clock,
    sends := [], records := [] }

/-- A batch of `n` distinct white pixels. -/
def wpix (n : Nat) : List Pixel :=
  (List.range n).map (fun k => { x := Int.ofNat k, y := 0, color := "#FFFFFF" })

/-- `n` iteration inputs: minimal jitter, zero latency, confirmed success. -/
def wok (n : Nat) : List StepIn :=
  List.replicate n { jitter := 50, latency := 0, res := SendRes.ok }

/-- A state at the burst-quota boundary: 15 recent sends and a just-finished
request, as allowed by the burst-log invariant. -/
def xC2 : Embedder :=
  { mkEmbedder 100000 with
      burstTracker := [99985, 99986, 99987, 99988, 99989, 99990, 99991, 99992,
        99993, 99994, 99995, 99996, 99997, 99998, 99999],
      lastRequestTime := some 99999 }

/-- An expired checkpoint (timestamp at epoch, clock far beyond 24 h). -/
def xC4 : Embedder :=
  { mkEmbedder 100000000 with
      store := some { sessionId := "embed_1", queue := [], originalPixels := [],
                      pixelsPlaced := 0, errors := 0, timestamp := 0,
                      isActive := false } }

/-- A state with a pending pixel and an open session. -/
def xC6 : Embedder :=
  { mkEmbedder 0 with queue := [{ x := 1, y := 2, color := "#ABCDEF" }],
                      sessionId := some "embed_1" }

/-- A fresh (non-expired) checkpoint whose pending queue is empty. -/
def xC7d : Progress :=
  { sessionId := "embed_1", queue := [], originalPixels := [], pixelsPlaced := 5,
    errors := 0, timestamp := 999000, isActive := false }

/-- A state holding `xC7d` in the store. -/
def xC7 : Embedder := { mkEmbedder 1000000 with store := some xC7d }

/-- A state holding an expired checkpoint with a non-empty queue. -/
def xC8 : Embedder :=
  { mkEmbedder 100000000 with
      store := some { sessionId := "embed_1",
                      queue := [{ x := 1, y := 2, color := "#ABCDEF" }],
                      originalPixels := [], pixelsPlaced := 5, errors := 0,
                      timestamp := 0, isActive := true } }

/-- The status record `getStatus` reports for a state `e`, given the DOM
credit scrape result and the resumable flag computed from the store. -/
def statusOf (e : Embedder) (dom : Option Int) (resumable : Bool) : Status :=
  { isPlacing := e.isPlacing, queueLength := e.queue.length,
    originalPixelsCount := e.originalPixels.length, pixelsPlaced := e.pixelsPlaced,
    errors := e.errors, currentRate := e.requestTimes.length, tier := e.currentTier,
    burstUsed := (e.burstTracker.filter
      (fun t => decide (e.clock - t < burstWindow))).length,
    burstLimit := burstLimit, credits := dom, delay := universalDelay,
    sessionId := e.sessionId, hasResumableSession := resumable }

/-! ### Basic facts about `listMin` and `evict` -/

theorem listMin_eq_self {ts : List Int} : ∀ {m : Int}, (∀ x ∈ ts, m ≤ x) → listMin m ts = m := by
  induction ts with
  | nil => intro m _; rfl
  | cons t ts ih =>
    intro m h
    have hmt : min m t = m := min_eq_left (h t (List.mem_cons_self t ts))
    show listMin (min m t) ts = m
    rw [hmt]
    exact ih fun x hx => h x (List.mem_cons_of_mem t hx)

theorem listMin_mem (ts : List Int) : ∀ m : Int, listMin m ts = m ∨ listMin m ts ∈ ts := by
  induction ts with
  | nil => intro m; exact Or.inl rfl
  | cons t ts ih =>
    intro m
    show listMin (min m t) ts = m ∨ listMin (min m t) ts ∈ t :: ts
    rcases ih (min m t) with h | h
    · rcases min_choice m t with hm | hm
      · exact Or.inl (h.trans hm)
      · exact Or.inr (by rw [h.trans hm]; exact List.mem_cons_self t ts)
    · exact Or.inr (List.mem_cons_of_mem t h)

theorem mem_evict {w now x : Int} {l : List Int} :
    x ∈ evict w now l ↔ x ∈ l ∧ now - x < w := by
  simp [evict, List.mem_filter]

theorem evict_length_le (w now : Int) (l : List Int) : (evict w now l).length ≤ l.length :=
  List.length_filter_le _ l

theorem evict_append (w now : Int) (l₁ l₂ : List Int) :
    evict w now (l₁ ++ l₂) = evict w now l₁ ++ evict w now l₂ :=
  List.filter_append l₁ l₂

theorem evict_suffix {l : List Int} (w now : Int) (h : l.Pairwise (· < ·)) :
    evict w now l <:+ l := by
  induction l with
  | nil => exact List.nil_suffix
  | cons a l ih =>
    rcases List.pairwise_cons.mp h with ⟨ha, hl⟩
    by_cases hpa : now - a < w
    · have : evict w now (a :: l) = a :: l := by
        apply List.filter_eq_self.mpr
        intro b hb
        rcases List.mem_cons.mp hb with rfl | hb
        · simpa using hpa
        · have : a < b := ha b hb
          simp only [decide_eq_true_eq]
          omega
      rw [this]
    · have : evict w now (a :: l) = evict w now l := by
        simp only [evict, List.filter_cons]
        rw [if_neg (by simpa using hpa)]
      rw [this]
      exact (ih hl).trans (List.suffix_cons a l)

theorem length_filter_lt_of_mem {p : Int → Bool} {l : List Int} {a : Int}
    (ha : a ∈ l) (hpa : p a = false) : (l.filter p).length < l.length := by
  induction l with
  | nil => cases ha
  | cons b l ih =>
    rcases List.mem_cons.mp ha with rfl | ha
    · rw [List.filter_cons, if_neg (by simp [hpa])]
      exact Nat.lt_succ_of_le (List.length_filter_le p l)
    · rw [List.filter_cons]
      by_cases hpb : p b = true
      · rw [if_pos (by simp [hpb])]
        simpa using ih ha
      · rw [if_neg (by simpa using hpb)]
        exact Nat.lt_succ_of_lt (ih ha)

theorem suffix_append_single {l₁ l₂ : List Int} (h : l₁ <:+ l₂) (a : Int) :
    l₁ ++ [a] <:+ l₂ ++ [a] := by
  obtain ⟨p, hp⟩ := h
  exact ⟨p, by rw [← List.append_assoc, hp]⟩

theorem pairwise_head_le {a : Int} {l : List Int} (h : (a :: l).Pairwise (· < ·)) :
    ∀ x ∈ a :: l, a ≤ x := by
  intro x hx
  rcases List.mem_cons.mp hx with rfl | hx
  · exact le_refl x
  · exact le_of_lt ((List.pairwise_cons.mp h).1 x hx)

theorem sorted_drop_head_le {l : List Int} (h : l.Pairwise (· < ·)) (n : Nat)
    (hn : n < l.length) : ∀ x ∈ l.drop n, l.get ⟨n, hn⟩ ≤ x := by
  have hd : l.drop n = l.get ⟨n, hn⟩ :: l.drop (n + 1) := by
    rw [List.drop_eq_getElem_cons hn, List.get_eq_getElem]
  have hp : (l.drop n).Pairwise (· < ·) := List.Pairwise.sublist (List.drop_sublist n l) h
  rw [hd] at hp
  intro x hx
  rw [hd] at hx
  exact pairwise_head_le hp x hx

theorem sorted_nodup {l : List Int} (h : l.Pairwise (· < ·)) : l.Nodup :=
  h.imp ne_of_lt

/-! ### Facts about the phases of `safeDelay` -/

theorem burstPhase_not_trigger {now : Int} {bt : List Int}
    (h : ¬ burstLimit ≤ bt.length) : burstPhase now bt = (bt, now) := by
  unfold burstPhase
  rw [if_neg h]

theorem burstPhase_now_le (now : Int) (bt : List Int) : now ≤ (burstPhase now bt).2 := by
  unfold burstPhase
  by_cases h : burstLimit ≤ bt.length
  · rw [if_pos h]
    cases bt with
    | nil => exact le_refl now
    | cons t ts =>
      simp only
      split
      · omega
      · exact le_refl now
  · rw [if_neg h]

theorem burstPhase_suffix {now : Int} {bt : List Int} (h : bt.Pairwise (· < ·)) :
    (burstPhase now bt).1 <:+ bt := by
  unfold burstPhase
  by_cases hl : burstLimit ≤ bt.length
  · rw [if_pos hl]
    cases bt with
    | nil => exact List.nil_suffix
    | cons t ts =>
      simp only
      split
      · exact evict_suffix _ _ h
      · exact List.suffix_refl _
  · rw [if_neg hl]

theorem burstPhase_length_le (now : Int) (bt : List Int) :
    (burstPhase now bt).1.length ≤ bt.length := by
  unfold burstPhase
  by_cases hl : burstLimit ≤ bt.length
  · rw [if_pos hl]
    cases bt with
    | nil => exact le_refl _
    | cons t ts =>
      simp only
      split
      · exact evict_length_le _ _ _
      · exact le_refl _
  · rw [if_neg hl]

theorem burstPhase_mem_of {x now : Int} {bt : List Int} (hx : x ∈ bt)
    (hwin : (burstPhase now bt).2 - x < burstWindow) : x ∈ (burstPhase now bt).1 := by
  revert hwin
  unfold burstPhase
  by_cases hl : burstLimit ≤ bt.length
  · rw [if_pos hl]
    cases bt with
    | nil => intro _; cases hx
    | cons t ts =>
      simp only
      split
      · intro hwin
        exact mem_evict.mpr ⟨hx, hwin⟩
      · intro _; exact hx
  · rw [if_neg hl]
    intro _; exact hx

/-- When the burst log (already evicted at `now`) is full and its head is its
minimum, the burst wait wakes exactly when the oldest entry is
`burstWindow + burstSafetyBuffer` old. -/
theorem burstPhase_exit_of_trigger {now t : Int} {ts : List Int}
    (hlen : burstLimit ≤ (t :: ts).length) (hmin : ∀ x ∈ ts, t ≤ x)
    (hwin : now - t < burstWindow) :
    (burstPhase now (t :: ts)).2 = t + (burstWindow + burstSafetyBuffer) := by
  unfold burstPhase
  rw [if_pos hlen]
  simp only [listMin_eq_self hmin]
  rw [if_pos (by simp only [burstWindow, burstSafetyBuffer] at *; omega)]
  omega

/-- After the eviction at entry and the burst phase, a previously full log has
lost at least its oldest entry: one more entry can be pushed without the log
ever holding more than `burstLimit` timestamps. -/
theorem burstPhase_after_evict_len {now : Int} {bt : List Int}
    (hs : bt.Pairwise (· < ·)) (hb : bt.length ≤ burstLimit) :
    (burstPhase now (evict burstWindow now bt)).1.length + 1 ≤ burstLimit := by
  have hs0 : (evict burstWindow now bt).Pairwise (· < ·) :=
    List.Pairwise.sublist (evict_suffix _ _ hs).sublist hs
  have hlen0 : (evict burstWindow now bt).length ≤ burstLimit :=
    le_trans (evict_length_le _ _ _) hb
  by_cases hc : burstLimit ≤ (evict burstWindow now bt).length
  · -- the wait triggers, and the oldest entry is evicted at the wake time
    cases h0 : evict burstWindow now bt with
    | nil => rw [h0] at hc; simp [burstLimit] at hc
    | cons t ts =>
      rw [h0] at hs0 hlen0 hc
      have hmin : ∀ x ∈ ts, t ≤ x := fun x hx =>
        pairwise_head_le hs0 x (List.mem_cons_of_mem t hx)
      have htw : now - t < burstWindow := by
        have hmem : t ∈ evict burstWindow now bt := by
          rw [h0]; exact List.mem_cons_self t ts
        exact (mem_evict.mp hmem).2
      have hmin2 : listMin t ts = t := listMin_eq_self hmin
      unfold burstPhase
      rw [if_pos hc]
      simp only [hmin2]
      rw [if_pos (by simp only [burstWindow, burstSafetyBuffer] at *; omega)]
      have hlt : (evict burstWindow (now + (burstWindow - (now - t) + burstSafetyBuffer))
          (t :: ts)).length < (t :: ts).length := by
        apply length_filter_lt_of_mem (List.mem_cons_self t ts)
        simp only [decide_eq_false_iff_not, not_lt]
        simp only [burstWindow, burstSafetyBuffer] at *
        omega
      simp only
      omega
  · rw [burstPhase_not_trigger hc]
    show (evict burstWindow now bt).length + 1 ≤ burstLimit
    omega

theorem spacingWait_nonneg (now : Int) (l : Option Int) : 0 ≤ spacingWait now l := by
  cases l with
  | none => exact le_refl 0
  | some last =>
    simp only [spacingWait]
    split <;> omega

theorem spacingWait_lb (now last : Int) :
    last + universalDelay ≤ now + spacingWait now (some last) := by
  simp only [spacingWait]
  split <;> omega

theorem spacingWait_ub (now last : Int) (h : last ≤ now) :
    spacingWait now (some last) ≤ universalDelay := by
  simp only [spacingWait, universalDelay]
  split <;> omega

/-! ### Projections of `safeDelay` and `recordRequest` -/

theorem safeDelay_clock_eq (e : Embedder) (j : Int) :
    (safeDelay e j).clock =
      (burstPhase e.clock (evict burstWindow e.clock e.burstTracker)).2 +
        spacingWait e.clock e.lastRequestTime + j := rfl

theorem safeDelay_burstTracker_eq (e : Embedder) (j : Int) :
    (safeDelay e j).burstTracker =
      (burstPhase e.clock (evict burstWindow e.clock e.burstTracker)).1 := rfl

theorem safeDelay_lastRequestTime_eq (e : Embedder) (j : Int) :
    (safeDelay e j).lastRequestTime = some (safeDelay e j).clock := rfl

theorem safeDelay_clock_ge (e : Embedder) (j : Int) :
    e.clock + j ≤ (safeDelay e j).clock := by
  rw [safeDelay_clock_eq]
  have h1 := burstPhase_now_le e.clock (evict burstWindow e.clock e.burstTracker)
  have h2 := spacingWait_nonneg e.clock e.lastRequestTime
  omega

theorem safeDelay_spacing {e : Embedder} {last : Int} (j : Int)
    (hl : e.lastRequestTime = some last) :
    last + universalDelay + j ≤ (safeDelay e j).clock := by
  rw [safeDelay_clock_eq, hl]
  have h1 := burstPhase_now_le e.clock (evict burstWindow e.clock e.burstTracker)
  have h2 := spacingWait_lb e.clock last
  omega

theorem safeDelay_burstPhase_exit_le (e : Embedder) (j : Int) (hj : 0 ≤ j) :
    (burstPhase e.clock (evict burstWindow e.clock e.burstTracker)).2 ≤
      (safeDelay e j).clock := by
  rw [safeDelay_clock_eq]
  have h2 := spacingWait_nonneg e.clock e.lastRequestTime
  omega

/-! ### The window bound on a timestamp trace -/

theorem WB_nil : WB [] := by
  intro i h
  simp [burstLimit] at h

theorem WB_tail {a : Int} {R : List Int} (h : WB (a :: R)) : WB R := by
  intro i hi
  have hi2 : (i + 1) + burstLimit < (a :: R).length := by
    simp only [List.length_cons, burstLimit] at hi ⊢
    omega
  exact h (i + 1) hi2

theorem get_append_left_eq (R S : List Int) (i : Nat) (h : i < R.length)
    (h2 : i < (R ++ S).length) : (R ++ S).get ⟨i, h2⟩ = R.get ⟨i, h⟩ := by
  simp only [List.get_eq_getElem]
  exact List.getElem_append_left h

theorem get_concat_last_eq (R : List Int) (r : Int) (i : Nat) (hi : i = R.length)
    (h : i < (R ++ [r]).length) : (R ++ [r]).get ⟨i, h⟩ = r := by
  simp only [List.get_eq_getElem]
  exact List.getElem_concat_length R r i hi h

theorem WB_concat {R : List Int} {r : Int} (hwb : WB R)
    (hlast : ∀ i (hi : i + burstLimit = R.length),
      R.get ⟨i, by simp only [burstLimit] at hi; omega⟩ + burstWindow ≤ r) :
    WB (R ++ [r]) := by
  intro i h
  have hlen : (R ++ [r]).length = R.length + 1 := by simp
  by_cases hi : i + burstLimit < R.length
  · have hr := hwb i hi
    rw [get_append_left_eq R [r] i (by omega) (by omega),
        get_append_left_eq R [r] (i + burstLimit) hi (by omega)]
    exact hr
  · have hieq : i + burstLimit = R.length := by omega
    have hr := hlast i hieq
    rw [get_append_left_eq R [r] i (by simp only [burstLimit] at hieq; omega) (by omega),
        get_concat_last_eq R r (i + burstLimit) hieq (by omega)]
    exact hr

/-- On a strictly increasing trace satisfying `WB`, no half-open window
`(t, t + burstWindow]` contains more than `burstLimit` entries. -/
theorem window_count_of_WB :
    ∀ (R : List Int), R.Pairwise (· < ·) → WB R → ∀ t : Int,
      (R.filter (fun r => decide (t < r ∧ r ≤ t + burstWindow))).length ≤ burstLimit := by
  intro R
  induction R with
  | nil => intro _ _ t; simp [burstLimit]
  | cons a R ih =>
    intro hs hwb t
    have hsR : R.Pairwise (· < ·) := (List.pairwise_cons.mp hs).2
    have hwbR : WB R := WB_tail hwb
    rw [List.filter_cons]
    by_cases hpa : t < a ∧ a ≤ t + burstWindow
    · rw [if_pos (by simpa using hpa)]
      by_cases hlenR : R.length < burstLimit
      · have := List.length_filter_le (fun r => decide (t < r ∧ r ≤ t + burstWindow)) R
        simp only [List.length_cons]
        omega
      · -- `R` has at least 15 entries, and entry 14 of `R` lies beyond the window
        push_neg at hlenR
        have h15 : 14 < R.length := by
          simp only [burstLimit] at hlenR
          omega
        have hwb0 : a + burstWindow ≤ R.get ⟨14, h15⟩ :=
          hwb 0 (by simp only [List.length_cons, burstLimit]; omega)
        -- split `R` at position 14: nothing at or beyond it fits in the window
        have hdrop : R.filter (fun r => decide (t < r ∧ r ≤ t + burstWindow))
            = (R.take 14).filter (fun r => decide (t < r ∧ r ≤ t + burstWindow))
              ++ (R.drop 14).filter (fun r => decide (t < r ∧ r ≤ t + burstWindow)) := by
          rw [← List.filter_append, List.take_append_drop]
        have hnil : (R.drop 14).filter
            (fun r => decide (t < r ∧ r ≤ t + burstWindow)) = [] := by
          apply List.filter_eq_nil_iff.mpr
          intro x hx
          have hle : R.get ⟨14, h15⟩ ≤ x := sorted_drop_head_le hsR 14 h15 x hx
          simp only [decide_eq_true_eq, not_and, not_le]
          intro _
          omega
        have htake : ((R.take 14).filter
            (fun r => decide (t < r ∧ r ≤ t + burstWindow))).length ≤ 14 := by
          calc ((R.take 14).filter _).length
              ≤ (R.take 14).length := List.length_filter_le _ _
            _ ≤ 14 := by rw [List.length_take]; omega
        rw [hdrop, hnil]
        simp only [List.length_cons, List.length_append, List.length_nil, burstLimit]
        omega
    · rw [if_neg (by simpa using hpa)]
      exact ih hsR hwbR t

/-! ### The run invariant of the rate limiter -/

theorem dispatchTime_eq (e : Embedder) (i : StepIn) :
    dispatchTime e i = (safeDelay e i.jitter).clock := rfl

theorem Inv_init {e : Embedder} (h1 : e.records = []) (h2 : e.burstTracker = [])
    (h3 : e.lastRequestTime = none) (h4 : e.sends = []) : Inv e := by
  refine ⟨?_, ?_, ?_, ?_, ?_, ?_, ?_, ?_, ?_⟩
  · rw [h1]; exact List.Pairwise.nil
  · rw [h1]; intro r hr; cases hr
  · rw [h1, h2]
  · rw [h2]; simp [burstLimit]
  · rw [h1]; intro r hr; cases hr
  · rw [h1]; exact WB_nil
  · simp [h3, h4]
  · rw [h4]; exact List.chain'_nil
  · rw [h4]; intro s hs; cases hs

theorem bt_sorted_of_Inv {e : Embedder} (h : Inv e) :
    e.burstTracker.Pairwise (· < ·) :=
  List.Pairwise.sublist h.bt_suffix.sublist h.rec_sorted

theorem tracker_suffix_of_Inv {e : Embedder} (h : Inv e) (j : Int) :
    (safeDelay e j).burstTracker <:+ e.records := by
  rw [safeDelay_burstTracker_eq]
  have s2 : evict burstWindow e.clock e.burstTracker <:+ e.burstTracker :=
    evict_suffix _ _ (bt_sorted_of_Inv h)
  have s1 : (burstPhase e.clock (evict burstWindow e.clock e.burstTracker)).1
      <:+ evict burstWindow e.clock e.burstTracker :=
    burstPhase_suffix (List.Pairwise.sublist s2.sublist (bt_sorted_of_Inv h))
  exact (s1.trans s2).trans h.bt_suffix

theorem tracker_len_of_Inv {e : Embedder} (h : Inv e) (j : Int) :
    (safeDelay e j).burstTracker.length + 1 ≤ burstLimit := by
  rw [safeDelay_burstTracker_eq]
  exact burstPhase_after_evict_len (bt_sorted_of_Inv h) h.bt_len

/-- An unexpired recorded timestamp survives into the burst log produced by
`safeDelay`, as seen from any instant `tt` at or after the dispatch. -/
theorem tracker_keep_of_Inv {e : Embedder} {i : StepIn} (h : Inv e) (hj : 0 ≤ i.jitter) :
    ∀ x ∈ e.records, ∀ tt : Int, dispatchTime e i ≤ tt → tt - x < burstWindow →
      x ∈ (safeDelay e i.jitter).burstTracker := by
  intro x hx tt htt hwin
  have hT := safeDelay_clock_ge e i.jitter
  have hBP := safeDelay_burstPhase_exit_le e i.jitter hj
  rw [dispatchTime_eq] at htt
  rw [safeDelay_burstTracker_eq]
  apply burstPhase_mem_of
  · exact mem_evict.mpr ⟨h.bt_complete x hx (by omega), by omega⟩
  · omega

/-- The previous dispatch (when there is one) happened at least
`universalDelay` before the next dispatch instant. -/
theorem sends_link_of_Inv {e : Embedder} {i : StepIn} (h : Inv e) (hj : 0 ≤ i.jitter) :
    ∀ x ∈ e.sends.getLast?, x + universalDelay ≤ dispatchTime e i := by
  intro x hx
  have hlx : e.lastRequestTime = some x := by
    rw [h.last_eq]; exact Option.mem_def.mp hx
  have := safeDelay_spacing i.jitter hlx
  rw [dispatchTime_eq]
  omega

/-- The heart of the rate bound: when a new success is recorded, it lies at
least `burstWindow` after the record 15 positions back, because either that
record had already expired at the entry of `safeDelay`, or the evicted burst
log was exactly the last 15 records and the burst wait pushed the dispatch
past its expiry plus the safety buffer. -/
theorem wb_extend {e : Embedder} {i : StepIn} (h : Inv e) (hj : 50 ≤ i.jitter)
    (hl : 0 ≤ i.latency) :
    ∀ idx (hidx : idx + burstLimit = e.records.length)
      (hidxr : idx < e.records.length),
      e.records.get ⟨idx, hidxr⟩ + burstWindow ≤ settleTime e i := by
  intro idx hidx hidxr
  have hBL : burstLimit = 15 := rfl
  have hBW : burstWindow = (10000 : Int) := rfl
  have hBS : burstSafetyBuffer = (2000 : Int) := rfl
  have hTge : e.clock + i.jitter ≤ dispatchTime e i := safeDelay_clock_ge e i.jitter
  have hTcf : dispatchTime e i ≤ settleTime e i := by
    unfold settleTime; omega
  by_cases hexp : e.clock - e.records.get ⟨idx, hidxr⟩ < burstWindow
  · -- the record 15 back is still inside the window at entry
    have ham : e.records.get ⟨idx, hidxr⟩ ∈ e.records := List.get_mem _ _ _
    have habt : e.records.get ⟨idx, hidxr⟩ ∈ e.burstTracker :=
      h.bt_complete _ ham hexp
    have habt0 : e.records.get ⟨idx, hidxr⟩ ∈ evict burstWindow e.clock e.burstTracker :=
      mem_evict.mpr ⟨habt, hexp⟩
    obtain ⟨p, hp⟩ :=
      (evict_suffix burstWindow e.clock (bt_sorted_of_Inv h)).trans h.bt_suffix
    have hplen : p.length + (evict burstWindow e.clock e.burstTracker).length
        = e.records.length := by
      rw [← hp]; simp
    have hbt0pos : 0 < (evict burstWindow e.clock e.burstTracker).length :=
      List.length_pos.mpr (List.ne_nil_of_mem habt0)
    have hlen0 : burstLimit ≤ (evict burstWindow e.clock e.burstTracker).length := by
      by_contra hcon
      push_neg at hcon
      have hidxlt : idx < p.length := by omega
      have hklt : p.length < e.records.length := by omega
      have hdropeq : evict burstWindow e.clock e.burstTracker
          = e.records.drop p.length := by
        rw [← hp, List.drop_left]
      have hmono : e.records.get ⟨idx, hidxr⟩ < e.records.get ⟨p.length, hklt⟩ :=
        List.pairwise_iff_get.mp h.rec_sorted ⟨idx, hidxr⟩ ⟨p.length, hklt⟩
          (Fin.mk_lt_mk.mpr hidxlt)
      have hge : e.records.get ⟨p.length, hklt⟩ ≤ e.records.get ⟨idx, hidxr⟩ :=
        sorted_drop_head_le h.rec_sorted p.length hklt _ (hdropeq ▸ habt0)
      omega
    have hlen15 : (evict burstWindow e.clock e.burstTracker).length = burstLimit :=
      le_antisymm (le_trans (evict_length_le _ _ _) h.bt_len) hlen0
    have hplen2 : p.length = idx := by omega
    have hdropbt : evict burstWindow e.clock e.burstTracker = e.records.drop idx := by
      rw [← hplen2, ← hp, List.drop_left]
    have hcons : e.records.drop idx
        = e.records.get ⟨idx, hidxr⟩ :: e.records.drop (idx + 1) := by
      rw [List.drop_eq_getElem_cons hidxr, List.get_eq_getElem]
    have hmin : ∀ x ∈ e.records.drop (idx + 1), e.records.get ⟨idx, hidxr⟩ ≤ x := by
      intro x hx
      exact sorted_drop_head_le h.rec_sorted idx hidxr x
        (by rw [hcons]; exact List.mem_cons_of_mem _ hx)
    have hexit : (burstPhase e.clock (evict burstWindow e.clock e.burstTracker)).2
        = e.records.get ⟨idx, hidxr⟩ + (burstWindow + burstSafetyBuffer) := by
      rw [hdropbt, hcons]
      apply burstPhase_exit_of_trigger _ hmin hexp
      rw [← hcons, ← hdropbt]
      omega
    have hBPle := safeDelay_burstPhase_exit_le e i.jitter (by omega)
    rw [← dispatchTime_eq] at hBPle
    omega
  · push_neg at hexp
    omega

/-- Invariant preservation for the successful-send step shape. -/
theorem Inv_of_okStep {e f : Embedder} {i : StepIn} (hj : 50 ≤ i.jitter)
    (hl : 0 ≤ i.latency) (h : Inv e)
    (hrec : f.records = e.records ++ [settleTime e i])
    (hsends : f.sends = e.sends ++ [dispatchTime e i])
    (hbt : f.burstTracker =
      evict burstWindow (settleTime e i)
        ((safeDelay e i.jitter).burstTracker ++ [settleTime e i]))
    (hclock : f.clock = settleTime e i)
    (hlast : f.lastRequestTime = some (dispatchTime e i)) : Inv f := by
  have hTge : e.clock + i.jitter ≤ dispatchTime e i := safeDelay_clock_ge e i.jitter
  have hTcf : dispatchTime e i ≤ settleTime e i := by
    unfold settleTime; omega
  have hsingle : evict burstWindow (settleTime e i) [settleTime e i] = [settleTime e i] := by
    simp [evict, burstWindow]
  have hE1sorted : ((safeDelay e i.jitter).burstTracker).Pairwise (· < ·) :=
    List.Pairwise.sublist (tracker_suffix_of_Inv h i.jitter).sublist h.rec_sorted
  refine ⟨?_, ?_, ?_, ?_, ?_, ?_, ?_, ?_, ?_⟩
  · -- records stay strictly increasing
    rw [hrec]
    refine List.pairwise_append.mpr ⟨h.rec_sorted, List.pairwise_singleton .. , ?_⟩
    intro a ha b hb
    have hble : b = settleTime e i := by simpa using hb
    have := h.rec_le a ha
    omega
  · rw [hrec, hclock]
    intro r hr
    rcases List.mem_append.mp hr with hr | hr
    · have := h.rec_le r hr; omega
    · have : r = settleTime e i := by simpa using hr
      omega
  · rw [hbt, hrec, evict_append, hsingle]
    exact suffix_append_single
      ((evict_suffix _ _ hE1sorted).trans (tracker_suffix_of_Inv h i.jitter)) _
  · rw [hbt, evict_append, hsingle]
    have h1 := tracker_len_of_Inv h i.jitter
    have h2 := evict_length_le burstWindow (settleTime e i) (safeDelay e i.jitter).burstTracker
    simp only [List.length_append, List.length_singleton]
    omega
  · rw [hbt, hrec, hclock, evict_append, hsingle]
    intro r hr hw
    rcases List.mem_append.mp hr with hr | hr
    · refine List.mem_append_left _ (mem_evict.mpr ⟨?_, hw⟩)
      exact tracker_keep_of_Inv h (by omega) r hr (settleTime e i) hTcf hw
    · exact List.mem_append_right _ hr
  · -- the window bound extends to the new record
    rw [hrec]
    apply WB_concat h.wb
    intro idx hidx
    exact wb_extend h hj hl idx hidx (by simp only [burstLimit] at hidx; omega)
  · rw [hlast, hsends]
    exact (List.getLast?_concat _).symm
  · rw [hsends]
    refine List.chain'_append.mpr ⟨h.sends_gap, List.chain'_singleton _, ?_⟩
    intro x hx y hy
    have hyT : dispatchTime e i = y := by simpa using hy
    rw [← hyT]
    exact sends_link_of_Inv h (by omega) x hx
  · rw [hsends, hclock]
    intro s hs
    rcases List.mem_append.mp hs with hs | hs
    · have := h.sends_le s hs; omega
    · have : s = dispatchTime e i := by simpa using hs
      omega

theorem safeDelay_set_queue (e : Embedder) (q : List Pixel) (j : Int) :
    safeDelay { e with queue := q } j = { safeDelay e j with queue := q } := rfl

theorem procStep_nil {e : Embedder} {i : StepIn} (hq : e.queue = []) :
    procStep e i = e := by
  unfold procStep
  rw [hq]

theorem procStep_eq_ok {e : Embedder} {i : StepIn} {px : Pixel} {rest : List Pixel}
    (hq : e.queue = px :: rest) (hres : i.res = SendRes.ok) :
    procStep e i =
      (let e1 := safeDelay { e with queue := rest } i.jitter
       let e2 := { e1 with clock := e1.clock + i.latency }
       let e3 := recordRequest e2
       let e4 := { e3 with pixelsPlaced := e3.pixelsPlaced + 1,
                           sends := e3.sends ++ [e1.clock],
                           records := e3.records ++ [e2.clock] }
       if e4.pixelsPlaced % 10 = 0 then { e4 with store := saveProgress e4 } else e4) := by
  unfold procStep
  rw [hq, hres]

theorem procStep_eq_errBurst {e : Embedder} {i : StepIn} {px : Pixel} {rest : List Pixel}
    (hq : e.queue = px :: rest) (hres : i.res = SendRes.errBurst) :
    procStep e i =
      (let e1 := safeDelay { e with queue := rest } i.jitter
       let e2 := { e1 with clock := e1.clock + i.latency }
       let e3 := { e2 with errors := e2.errors + 1, sends := e2.sends ++ [e1.clock] }
       let e4 := { e3 with store := saveProgress e3 }
       { e4 with burstTracker := [], clock := e4.clock + 15000 }) := by
  unfold procStep
  rw [hq, hres]

theorem procStep_eq_errRate {e : Embedder} {i : StepIn} {px : Pixel} {rest : List Pixel}
    (hq : e.queue = px :: rest) (hres : i.res = SendRes.errRate) :
    procStep e i =
      (let e1 := safeDelay { e with queue := rest } i.jitter
       let e2 := { e1 with clock := e1.clock + i.latency }
       let e3 := { e2 with errors := e2.errors + 1, sends := e2.sends ++ [e1.clock] }
       let e4 := { e3 with store := saveProgress e3 }
       { e4 with clock := e4.clock + 10000 }) := by
  unfold procStep
  rw [hq, hres]

theorem procStep_eq_errCredit {e : Embedder} {i : StepIn} {px : Pixel} {rest : List Pixel}
    (hq : e.queue = px :: rest) (hres : i.res = SendRes.errCredit) :
    procStep e i =
      (let e1 := safeDelay { e with queue := rest } i.jitter
       let e2 := { e1 with clock := e1.clock + i.latency }
       let e3 := { e2 with errors := e2.errors + 1, sends := e2.sends ++ [e1.clock] }
       let e4 := { e3 with store := saveProgress e3 }
       { e4 with isPlacing := false }) := by
  unfold procStep
  rw [hq, hres]

theorem procStep_eq_errOther {e : Embedder} {i : StepIn} {px : Pixel} {rest : List Pixel}
    (hq : e.queue = px :: rest) (hres : i.res = SendRes.errOther) :
    procStep e i =
      (let e1 := safeDelay { e with queue := rest } i.jitter
       let e2 := { e1 with clock := e1.clock + i.latency }
       let e3 := { e2 with errors := e2.errors + 1, sends := e2.sends ++ [e1.clock] }
       let e4 := { e3 with store := saveProgress e3 }
       { e4 with clock := e4.clock + 1000 }) := by
  unfold procStep
  rw [hq, hres]

/-- Invariant preservation for the failure step shapes that keep the burst
log produced by `safeDelay` (rate-limit, credit and generic errors). -/
theorem Inv_of_failStep {e f : Embedder} {i : StepIn} {pause : Int}
    (hj : 50 ≤ i.jitter) (hl : 0 ≤ i.latency) (hp : 0 ≤ pause) (h : Inv e)
    (hrec : f.records = e.records)
    (hsends : f.sends = e.sends ++ [dispatchTime e i])
    (hbt : f.burstTracker = (safeDelay e i.jitter).burstTracker)
    (hclock : f.clock = settleTime e i + pause)
    (hlast : f.lastRequestTime = some (dispatchTime e i)) : Inv f := by
  have hTge : e.clock + i.jitter ≤ dispatchTime e i := safeDelay_clock_ge e i.jitter
  have hTcf : dispatchTime e i ≤ settleTime e i := by
    unfold settleTime; omega
  refine ⟨?_, ?_, ?_, ?_, ?_, ?_, ?_, ?_, ?_⟩
  · rw [hrec]; exact h.rec_sorted
  · rw [hrec, hclock]
    intro r hr
    have := h.rec_le r hr
    omega
  · rw [hbt, hrec]; exact tracker_suffix_of_Inv h i.jitter
  · rw [hbt]
    have := tracker_len_of_Inv h i.jitter
    omega
  · rw [hbt, hrec, hclock]
    intro r hr hw
    exact tracker_keep_of_Inv h (by omega) r hr (settleTime e i + pause) (by omega) hw
  · rw [hrec]; exact h.wb
  · rw [hlast, hsends]
    exact (List.getLast?_concat _).symm
  · rw [hsends]
    refine List.chain'_append.mpr ⟨h.sends_gap, List.chain'_singleton _, ?_⟩
    intro x hx y hy
    have hyT : dispatchTime e i = y := by simpa using hy
    rw [← hyT]
    exact sends_link_of_Inv h (by omega) x hx
  · rw [hsends, hclock]
    intro s hs
    rcases List.mem_append.mp hs with hs | hs
    · have := h.sends_le s hs; omega
    · have : s = dispatchTime e i := by simpa using hs
      omega

/-- Invariant preservation for the burst-limit failure step shape, which
clears the burst log and then sleeps 15 s (longer than the burst window). -/
theorem Inv_of_burstClearStep {e f : Embedder} {i : StepIn}
    (hj : 50 ≤ i.jitter) (hl : 0 ≤ i.latency) (h : Inv e)
    (hrec : f.records = e.records)
    (hsends : f.sends = e.sends ++ [dispatchTime e i])
    (hbt : f.burstTracker = [])
    (hclock : f.clock = settleTime e i + 15000)
    (hlast : f.lastRequestTime = some (dispatchTime e i)) : Inv f := by
  have hTge : e.clock + i.jitter ≤ dispatchTime e i := safeDelay_clock_ge e i.jitter
  have hTcf : dispatchTime e i ≤ settleTime e i := by
    unfold settleTime; omega
  refine ⟨?_, ?_, ?_, ?_, ?_, ?_, ?_, ?_, ?_⟩
  · rw [hrec]; exact h.rec_sorted
  · rw [hrec, hclock]
    intro r hr
    have := h.rec_le r hr
    omega
  · rw [hbt]; exact List.nil_suffix
  · rw [hbt]; simp [burstLimit]
  · rw [hrec, hclock]
    intro r hr hw
    exfalso
    have := h.rec_le r hr
    simp only [burstWindow] at hw
    omega
  · rw [hrec]; exact h.wb
  · rw [hlast, hsends]
    exact (List.getLast?_concat _).symm
  · rw [hsends]
    refine List.chain'_append.mpr ⟨h.sends_gap, List.chain'_singleton _, ?_⟩
    intro x hx y hy
    have hyT : dispatchTime e i = y := by simpa using hy
    rw [← hyT]
    exact sends_link_of_Inv h (by omega) x hx
  · rw [hsends, hclock]
    intro s hs
    rcases List.mem_append.mp hs with hs | hs
    · have := h.sends_le s hs; omega
    · have : s = dispatchTime e i := by simpa using hs
      omega

/-- One loop iteration of `processQueue` preserves the run invariant. -/
theorem procStep_inv {e : Embedder} {i : StepIn} (hj : 50 ≤ i.jitter)
    (hl : 0 ≤ i.latency) (h : Inv e) : Inv (procStep e i) := by
  cases hq : e.queue with
  | nil => rw [procStep_nil hq]; exact h
  | cons px rest =>
    cases hres : i.res with
    | ok =>
      rw [procStep_eq_ok hq hres]
      dsimp only
      split
      · exact Inv_of_okStep hj hl h rfl rfl rfl rfl rfl
      · exact Inv_of_okStep hj hl h rfl rfl rfl rfl rfl
    | errBurst =>
      rw [procStep_eq_errBurst hq hres]
      exact Inv_of_burstClearStep hj hl h rfl rfl rfl rfl rfl
    | errRate =>
      rw [procStep_eq_errRate hq hres]
      exact Inv_of_failStep hj hl (by norm_num) h rfl rfl rfl rfl rfl
    | errCredit =>
      rw [procStep_eq_errCredit hq hres]
      refine Inv_of_failStep hj hl (le_refl 0) h rfl rfl rfl ?_ rfl
      show settleTime e i = settleTime e i + 0
      omega
    | errOther =>
      rw [procStep_eq_errOther hq hres]
      exact Inv_of_failStep hj hl (by norm_num) h rfl rfl rfl rfl rfl

/-- The whole dispatch loop preserves the run invariant. -/
theorem runIters_inv :
    ∀ (is : List StepIn) {e : Embedder}, Inv e →
      (∀ i ∈ is, 50 ≤ i.jitter ∧ 0 ≤ i.latency) → Inv (runIters e is) := by
  intro is
  induction is with
  | nil => intro e h _; exact h
  | cons i is ih =>
    intro e h hv
    unfold runIters
    split
    · exact h
    · exact ih (procStep_inv (hv i (List.mem_cons_self i is)).1
        (hv i (List.mem_cons_self i is)).2 h)
        (fun x hx => hv x (List.mem_cons_of_mem i hx))

/-- The run started by `embedImage` satisfies the invariant initially. -/
theorem Inv_embedImageStart (e : Embedder) (pixels : List Pixel) (sid : String) :
    Inv (embedImageStart e pixels sid) :=
  Inv_init rfl rfl rfl rfl

/-! ### Control-flow and frame lemmas for the dispatch loop -/

theorem finish_records (e : Embedder) : (finish e).records = e.records := by
  unfold finish; dsimp only; split <;> rfl

theorem finish_sends (e : Embedder) : (finish e).sends = e.sends := by
  unfold finish; dsimp only; split <;> rfl

theorem finish_queue (e : Embedder) : (finish e).queue = e.queue := by
  unfold finish; dsimp only; split <;> rfl

theorem finish_pixelsPlaced (e : Embedder) : (finish e).pixelsPlaced = e.pixelsPlaced := by
  unfold finish; dsimp only; split <;> rfl

theorem finish_errors (e : Embedder) : (finish e).errors = e.errors := by
  unfold finish; dsimp only; split <;> rfl

theorem finish_isPlacing (e : Embedder) : (finish e).isPlacing = false := by
  unfold finish; dsimp only; split <;> rfl

theorem finish_sessionId (e : Embedder) : (finish e).sessionId = e.sessionId := by
  unfold finish; dsimp only; split <;> rfl

theorem finish_originalPixels (e : Embedder) : (finish e).originalPixels = e.originalPixels := by
  unfold finish; dsimp only; split <;> rfl

theorem finish_store_empty {e : Embedder} (h : e.queue = []) : (finish e).store = none := by
  unfold finish
  dsimp only
  rw [if_pos (by simp [h])]

theorem finish_store_nonempty {e : Embedder} (h : e.queue ≠ []) :
    (finish e).store = saveProgress { e with isPlacing := false } := by
  unfold finish
  dsimp only
  rw [if_neg (by simp [h])]

theorem saveProgress_of_some {e : Embedder} {sid : String} (h : e.sessionId = some sid) :
    saveProgress e =
      some { sessionId := sid, queue := e.queue, originalPixels := e.originalPixels,
             pixelsPlaced := e.pixelsPlaced, errors := e.errors,
             timestamp := e.clock, isActive := e.isPlacing } := by
  unfold saveProgress
  rw [h]

theorem saveProgress_of_none {e : Embedder} (h : e.sessionId = none) :
    saveProgress e = e.store := by
  unfold saveProgress
  rw [h]

theorem runIters_stopped {e : Embedder} (h : e.isPlacing = false) :
    ∀ is : List StepIn, runIters e is = e := by
  intro is
  cases is with
  | nil => rfl
  | cons i is =>
    unfold runIters
    rw [if_pos (Or.inr h)]

theorem runIters_cons_active {e : Embedder} {i : StepIn} {is : List StepIn}
    (h : ¬ (e.queue.isEmpty = true ∨ e.isPlacing = false)) :
    runIters e (i :: is) = runIters (procStep e i) is := by
  conv_lhs => unfold runIters
  rw [if_neg h]

/-- The accounting effect of one loop iteration: exactly one operation leaves
the queue and is counted either as placed or as an error (and the batch sum
is untouched when the queue is already empty). -/
theorem procStep_counts (e : Embedder) (i : StepIn) :
    (procStep e i).pixelsPlaced + (procStep e i).errors + (procStep e i).queue.length
      = e.pixelsPlaced + e.errors + e.queue.length := by
  cases hq : e.queue with
  | nil => rw [procStep_nil hq, hq]
  | cons px rest =>
    cases hres : i.res with
    | ok =>
      rw [procStep_eq_ok hq hres]
      dsimp only [recordRequest, safeDelay]
      split <;> (simp only [List.length_cons]; omega)
    | errBurst =>
      rw [procStep_eq_errBurst hq hres]
      dsimp only [safeDelay]
      simp only [List.length_cons]
      omega
    | errRate =>
      rw [procStep_eq_errRate hq hres]
      dsimp only [safeDelay]
      simp only [List.length_cons]
      omega
    | errCredit =>
      rw [procStep_eq_errCredit hq hres]
      dsimp only [safeDelay]
      simp only [List.length_cons]
      omega
    | errOther =>
      rw [procStep_eq_errOther hq hres]
      dsimp only [safeDelay]
      simp only [List.length_cons]
      omega

theorem procStep_frame (e : Embedder) (i : StepIn) :
    (procStep e i).originalPixels = e.originalPixels ∧
    (procStep e i).sessionId = e.sessionId := by
  cases hq : e.queue with
  | nil => rw [procStep_nil hq]; exact ⟨rfl, rfl⟩
  | cons px rest =>
    cases hres : i.res with
    | ok =>
      rw [procStep_eq_ok hq hres]
      dsimp only
      split <;> exact ⟨rfl, rfl⟩
    | errBurst => rw [procStep_eq_errBurst hq hres]; exact ⟨rfl, rfl⟩
    | errRate => rw [procStep_eq_errRate hq hres]; exact ⟨rfl, rfl⟩
    | errCredit => rw [procStep_eq_errCredit hq hres]; exact ⟨rfl, rfl⟩
    | errOther => rw [procStep_eq_errOther hq hres]; exact ⟨rfl, rfl⟩

theorem runIters_counts :
    ∀ (is : List StepIn) (e : Embedder),
      (runIters e is).pixelsPlaced + (runIters e is).errors
          + (runIters e is).queue.length
        = e.pixelsPlaced + e.errors + e.queue.length := by
  intro is
  induction is with
  | nil => intro e; rfl
  | cons i is ih =>
    intro e
    unfold runIters
    split
    · rfl
    · rw [ih (procStep e i), procStep_counts]

theorem runIters_frame :
    ∀ (is : List StepIn) (e : Embedder),
      (runIters e is).originalPixels = e.originalPixels ∧
      (runIters e is).sessionId = e.sessionId := by
  intro is
  induction is with
  | nil => intro e; exact ⟨rfl, rfl⟩
  | cons i is ih =>
    intro e
    unfold runIters
    split
    · exact ⟨rfl, rfl⟩
    · obtain ⟨h1, h2⟩ := ih (procStep e i)
      obtain ⟨h3, h4⟩ := procStep_frame e i
      exact ⟨h1.trans h3, h2.trans h4⟩

/-- The control effect of a successful iteration. -/
theorem procStep_ok_ctrl {e : Embedder} {i : StepIn} {px : Pixel} {rest : List Pixel}
    (hq : e.queue = px :: rest) (hres : i.res = SendRes.ok) :
    (procStep e i).pixelsPlaced = e.pixelsPlaced + 1 ∧
    (procStep e i).errors = e.errors ∧
    (procStep e i).queue = rest ∧
    (procStep e i).isPlacing = e.isPlacing ∧
    (procStep e i).sessionId = e.sessionId := by
  rw [procStep_eq_ok hq hres]
  dsimp only
  split <;> exact ⟨rfl, rfl, rfl, rfl, rfl⟩

/-- The control effect of an insufficient-credit iteration. -/
theorem procStep_errCredit_ctrl {e : Embedder} {i : StepIn} {px : Pixel} {rest : List Pixel}
    (hq : e.queue = px :: rest) (hres : i.res = SendRes.errCredit) :
    (procStep e i).pixelsPlaced = e.pixelsPlaced ∧
    (procStep e i).errors = e.errors + 1 ∧
    (procStep e i).queue = rest ∧
    (procStep e i).isPlacing = false ∧
    (procStep e i).sessionId = e.sessionId := by
  rw [procStep_eq_errCredit hq hres]
  exact ⟨rfl, rfl, rfl, rfl, rfl⟩

/-- Running a block of confirmed successes shorter than the queue: the loop
consumes the block, counts every success, and stays running. -/
theorem runIters_ok_block :
    ∀ (is1 : List StepIn) (e : Embedder) (rest : List StepIn),
      (∀ i ∈ is1, i.res = SendRes.ok) → e.isPlacing = true →
      is1.length < e.queue.length →
      ∃ e2, runIters e (is1 ++ rest) = runIters e2 rest ∧
        e2.pixelsPlaced = e.pixelsPlaced + is1.length ∧
        e2.errors = e.errors ∧
        e2.queue.length = e.queue.length - is1.length ∧
        e2.isPlacing = true ∧
        e2.sessionId = e.sessionId := by
  intro is1
  induction is1 with
  | nil =>
    intro e rest _ hpl _
    exact ⟨e, rfl, by simp, rfl, by simp, hpl, rfl⟩
  | cons i is1 ih =>
    intro e rest hok hpl hlen
    cases hq : e.queue with
    | nil => rw [hq] at hlen; simp at hlen
    | cons px qrest =>
      have hguard : ¬ (e.queue.isEmpty = true ∨ e.isPlacing = false) := by
        rw [hq, hpl]; simp
      obtain ⟨c1, c2, c3, c4, c5⟩ := procStep_ok_ctrl hq (hok i (List.mem_cons_self i is1))
      have hlen2 : is1.length < (procStep e i).queue.length := by
        rw [c3]
        rw [hq] at hlen
        simp only [List.length_cons] at hlen ⊢
        omega
      obtain ⟨e2, he2, p1, p2, p3, p4, p5⟩ :=
        ih (procStep e i) rest (fun x hx => hok x (List.mem_cons_of_mem i hx))
          (by rw [c4, hpl]) hlen2
      refine ⟨e2, ?_, ?_, ?_, ?_, p4, ?_⟩
      · rw [List.cons_append, runIters_cons_active hguard]
        exact he2
      · rw [p1, c1]; simp only [List.length_cons]; omega
      · rw [p2, c2]
      · rw [p3, c3]; simp only [List.length_cons]; omega
      · rw [p5, c5]

/-! ### The claims -/

/-- C1: for every dispatch run started by `embedImage` — any batch, any
session id, any iteration inputs whose random extra delay is at least 50 ms
and whose settlement latency is nonnegative — no sliding window of length
`burstWindow` (10000 ms) contains more than `burstLimit` (15) recorded sends
(`recordRequest` timestamps), and no two consecutive sends (dispatch
instants, the moments `safeDelay` admits an operation) occur less than
`universalDelay` (400 ms) apart.  The statement is uniform in the number of
operations, so it holds for every N, in particular N in {1, 16, 1000}. -/
theorem C1_rate_bound (e₀ : Embedder) (pixels : List Pixel) (sid : String)
    (is : List StepIn) (hv : ∀ i ∈ is, 50 ≤ i.jitter ∧ 0 ≤ i.latency) :
    (∀ t : Int,
      ((embedImageRun e₀ pixels sid is).records.filter
          (fun r => decide (t < r ∧ r ≤ t + burstWindow))).length ≤ burstLimit) ∧
    (embedImageRun e₀ pixels sid is).sends.Chain'
      (fun a b => a + universalDelay ≤ b) := by
  have hinv := runIters_inv is (Inv_embedImageStart e₀ pixels sid) hv
  have hr : (embedImageRun e₀ pixels sid is).records
      = (runIters (embedImageStart e₀ pixels sid) is).records :=
    finish_records _
  have hs : (embedImageRun e₀ pixels sid is).sends
      = (runIters (embedImageStart e₀ pixels sid) is).sends :=
    finish_sends _
  constructor
  · intro t
    rw [hr]
    exact window_count_of_WB _ hinv.rec_sorted hinv.wb t
  · rw [hs]
    exact hinv.sends_gap

/-- Witness for C1: a concrete 16-operation run (which exercises the burst
wait after the 15th success). -/
theorem C1_rate_bound_witness :
    (∀ t : Int,
      ((embedImageRun (mkEmbedder 1000000) (wpix 16) "embed_1" (wok 16)).records.filter
          (fun r => decide (t < r ∧ r ≤ t + burstWindow))).length ≤ burstLimit) ∧
    (embedImageRun (mkEmbedder 1000000) (wpix 16) "embed_1" (wok 16)).sends.Chain'
      (fun a b => a + universalDelay ≤ b) :=
  C1_rate_bound (mkEmbedder 1000000) (wpix 16) "embed_1" (wok 16) (by decide)

/-- C2 (amended): under the stated invariant — the burst log holds at most
`burstLimit` timestamps, and no logged timestamp nor the last-request stamp
lies in the future — a single `safeDelay` call suspends the caller at most
`burstWindow + burstSafetyBuffer + universalDelay + 150` = 12550 ms: the
burst wait alone is bounded by `burstWindow + burstSafetyBuffer`, but the
source then adds the minimum-spacing wait (up to `universalDelay`) and the
random extra delay (under 150 ms) on top of it, so the bound
`burstWindow + burstSafetyBuffer` = 12000 ms claimed by the spec is exceeded
(see the counterexample). -/
theorem C2_wait_bound (e : Embedder) (j : Int)
    (hbt : ∀ x ∈ e.burstTracker, x ≤ e.clock)
    (hlast : ∀ last : Int, e.lastRequestTime = some last → last ≤ e.clock)
    (hlen : e.burstTracker.length ≤ burstLimit)
    (hj1 : 50 ≤ j) (hj2 : j ≤ 150) :
    (safeDelay e j).clock - e.clock
      ≤ burstWindow + burstSafetyBuffer + universalDelay + 150 := by
  rw [safeDelay_clock_eq]
  have hBP : (burstPhase e.clock (evict burstWindow e.clock e.burstTracker)).2
      ≤ e.clock + burstWindow + burstSafetyBuffer := by
    cases h0 : evict burstWindow e.clock e.burstTracker with
    | nil =>
      rw [burstPhase_not_trigger (by simp [burstLimit])]
      simp only [burstWindow, burstSafetyBuffer]
      omega
    | cons t ts =>
      by_cases hc : burstLimit ≤ (t :: ts).length
      · have hold : listMin t ts ≤ e.clock := by
          rcases listMin_mem ts t with hm | hm
          · rw [hm]
            apply hbt
            have hmem : t ∈ evict burstWindow e.clock e.burstTracker := by
              rw [h0]; exact List.mem_cons_self t ts
            exact (mem_evict.mp hmem).1
          · apply hbt
            have hmem : listMin t ts ∈ evict burstWindow e.clock e.burstTracker := by
              rw [h0]; exact List.mem_cons_of_mem t hm
            exact (mem_evict.mp hmem).1
        unfold burstPhase
        rw [if_pos hc]
        dsimp only
        split
        · omega
        · simp only [burstWindow, burstSafetyBuffer]
          omega
      · rw [burstPhase_not_trigger hc]
        simp only [burstWindow, burstSafetyBuffer]
        omega
  have hSW : spacingWait e.clock e.lastRequestTime ≤ universalDelay := by
    cases hL : e.lastRequestTime with
    | none =>
      simp only [spacingWait, universalDelay]
      omega
    | some last => exact spacingWait_ub _ _ (hlast last hL)
  omega

/-- Counterexample to C2 as stated: in a state satisfying the burst-log
invariant, one `safeDelay` call suspends the caller for 12533 ms, which is
more than `burstWindowMs + burstSafetyMarginMs` = 12000 ms. -/
theorem C2_wait_bound_counterexample :
    xC2.burstTracker.length ≤ burstLimit ∧
    (∀ x ∈ xC2.burstTracker, x ≤ xC2.clock) ∧
    ((50 : Int) ≤ 149 ∧ (149 : Int) ≤ 150) ∧
    burstWindow + burstSafetyBuffer < (safeDelay xC2 149).clock - xC2.clock := by
  decide

/-- Witness for the amended C2 at the same concrete state. -/
theorem C2_wait_bound_witness :
    (safeDelay xC2 149).clock - xC2.clock
      ≤ burstWindow + burstSafetyBuffer + universalDelay + 150 :=
  C2_wait_bound xC2 149 (by decide)
    (by
      intro last hl
      rw [show xC2.lastRequestTime = some 99999 from rfl] at hl
      injection hl with h3
      rw [← h3]
      decide)
    (by decide) (by decide) (by decide)

/-- C3: queue conservation.  At every loop-iteration boundary of a dispatch
run started by `embedImage` (that is, after any prefix of the iteration
inputs), `pixelsPlaced + errors + |queue| = |originalPixels|`: each iteration
removes exactly one operation from the queue and counts it exactly once. -/
theorem C3_queue_conservation (e₀ : Embedder) (pixels : List Pixel) (sid : String)
    (is : List StepIn) (k : Nat) :
    (runIters (embedImageStart e₀ pixels sid) (is.take k)).pixelsPlaced
      + (runIters (embedImageStart e₀ pixels sid) (is.take k)).errors
      + (runIters (embedImageStart e₀ pixels sid) (is.take k)).queue.length
      = (runIters (embedImageStart e₀ pixels sid) (is.take k)).originalPixels.length := by
  rw [runIters_counts, (runIters_frame (is.take k) _).1]
  simp [embedImageStart]

/-- C4: an expired checkpoint (saved more than 24 hours ago) is cleared by
`loadProgress` and reported absent, and any subsequent `loadProgress` call
(at any later clock) also reports absent. -/
theorem C4_expired_checkpoint (e : Embedder) (d : Progress)
    (hst : e.store = some d) (hexp : expiryMs < e.clock - d.timestamp) :
    (loadProgress e).2 = none ∧ (loadProgress e).1.store = none ∧
    ∀ c : Int, (loadProgress { (loadProgress e).1 with clock := c }).2 = none := by
  have h1 : loadProgress e = ({ e with store := none }, none) := by
    unfold loadProgress
    rw [hst]
    dsimp only
    rw [if_pos hexp]
  rw [h1]
  exact ⟨rfl, rfl, fun c => rfl⟩

/-- Witness for C4 at a concrete expired checkpoint. -/
theorem C4_expired_checkpoint_witness :
    (loadProgress xC4).2 = none ∧ (loadProgress xC4).1.store = none ∧
    ∀ c : Int, (loadProgress { (loadProgress xC4).1 with clock := c }).2 = none :=
  C4_expired_checkpoint xC4
    { sessionId := "embed_1", queue := [], originalPixels := [], pixelsPlaced := 0,
      errors := 0, timestamp := 0, isActive := false }
    rfl (by decide)

/-- C5: a batch of 100 operations where the 51st settlement is an
insufficient-credit error and the first 50 are confirmed successes.  The run
stops with 50 placed, 1 error, 49 operations left in the queue (the failed
operation is dropped, not requeued), the running flag cleared, and a
checkpoint present in the store. -/
theorem C5_credit_stop (e₀ : Embedder) (pixels : List Pixel) (sid : String)
    (is1 : List StepIn) (ic : StepIn) (rest : List StepIn)
    (hlen : pixels.length = 100) (h50 : is1.length = 50)
    (hok : ∀ i ∈ is1, i.res = SendRes.ok) (hc : ic.res = SendRes.errCredit) :
    (embedImageRun e₀ pixels sid (is1 ++ ic :: rest)).pixelsPlaced = 50 ∧
    (embedImageRun e₀ pixels sid (is1 ++ ic :: rest)).errors = 1 ∧
    (embedImageRun e₀ pixels sid (is1 ++ ic :: rest)).queue.length = 49 ∧
    (embedImageRun e₀ pixels sid (is1 ++ ic :: rest)).isPlacing = false ∧
    ∃ d : Progress, (embedImageRun e₀ pixels sid (is1 ++ ic :: rest)).store = some d := by
  have hs_placed : (embedImageStart e₀ pixels sid).pixelsPlaced = 0 := rfl
  have hs_errors : (embedImageStart e₀ pixels sid).errors = 0 := rfl
  have hs_queue : (embedImageStart e₀ pixels sid).queue = pixels := rfl
  have hs_placing : (embedImageStart e₀ pixels sid).isPlacing = true := rfl
  have hs_sid : (embedImageStart e₀ pixels sid).sessionId = some sid := rfl
  obtain ⟨e2, he2, p1, p2, p3, p4, p5⟩ :=
    runIters_ok_block is1 (embedImageStart e₀ pixels sid) (ic :: rest) hok hs_placing
      (by rw [hs_queue, hlen, h50]; omega)
  rw [hs_placed, h50] at p1
  rw [hs_errors] at p2
  rw [hs_queue, hlen, h50] at p3
  rw [hs_sid] at p5
  cases hq2 : e2.queue with
  | nil => rw [hq2] at p3; simp at p3
  | cons px2 qrest2 =>
    have hql : qrest2.length = 49 := by
      rw [hq2] at p3
      simp only [List.length_cons] at p3
      omega
    have hguard : ¬ (e2.queue.isEmpty = true ∨ e2.isPlacing = false) := by
      rw [hq2, p4]; simp
    obtain ⟨c1, c2, c3, c4, c5⟩ := procStep_errCredit_ctrl hq2 hc
    have hrun : runIters (embedImageStart e₀ pixels sid) (is1 ++ ic :: rest)
        = procStep e2 ic := by
      rw [he2, runIters_cons_active hguard, runIters_stopped c4]
    have hfull : embedImageRun e₀ pixels sid (is1 ++ ic :: rest)
        = finish (procStep e2 ic) := by
      show finish (runIters (embedImageStart e₀ pixels sid) (is1 ++ ic :: rest))
          = finish (procStep e2 ic)
      rw [hrun]
    have hfqne : (procStep e2 ic).queue ≠ [] := by
      rw [c3]
      intro hcon
      rw [hcon] at hql
      simp at hql
    refine ⟨?_, ?_, ?_, ?_, ?_⟩
    · rw [hfull, finish_pixelsPlaced]
      omega
    · rw [hfull, finish_errors]
      omega
    · rw [hfull, finish_queue, c3, hql]
    · rw [hfull, finish_isPlacing]
    · rw [hfull, finish_store_nonempty hfqne]
      have hsid2 : ({ procStep e2 ic with isPlacing := false } : Embedder).sessionId
          = some sid := by
        show (procStep e2 ic).sessionId = some sid
        rw [c5, p5]
      rw [saveProgress_of_some hsid2]
      exact ⟨_, rfl⟩

/-- Witness for C5 at a concrete 100-pixel batch. -/
theorem C5_credit_stop_witness :
    (embedImageRun (mkEmbedder 1000000) (wpix 100) "embed_1"
        (wok 50 ++ { jitter := 50, latency := 0, res := SendRes.errCredit } :: [])).pixelsPlaced = 50 ∧
    (embedImageRun (mkEmbedder 1000000) (wpix 100) "embed_1"
        (wok 50 ++ { jitter := 50, latency := 0, res := SendRes.errCredit } :: [])).errors = 1 ∧
    (embedImageRun (mkEmbedder 1000000) (wpix 100) "embed_1"
        (wok 50 ++ { jitter := 50, latency := 0, res := SendRes.errCredit } :: [])).queue.length = 49 ∧
    (embedImageRun (mkEmbedder 1000000) (wpix 100) "embed_1"
        (wok 50 ++ { jitter := 50, latency := 0, res := SendRes.errCredit } :: [])).isPlacing = false ∧
    ∃ d : Progress, (embedImageRun (mkEmbedder 1000000) (wpix 100) "embed_1"
        (wok 50 ++ { jitter := 50, latency := 0, res := SendRes.errCredit } :: [])).store = some d :=
  C5_credit_stop (mkEmbedder 1000000) (wpix 100) "embed_1" (wok 50)
    { jitter := 50, latency := 0, res := SendRes.errCredit } []
    (by decide) (by decide) (by decide) rfl

/-- C6: whenever `processQueue` exits, an empty queue purges the checkpoint,
and a non-empty queue (in a run with an open session) saves a resumable
checkpoint recording the remaining queue. -/
theorem C6_exit_checkpoint (e : Embedder) (is : List StepIn) :
    ((processQueue e is).queue = [] → (processQueue e is).store = none) ∧
    (∀ sid : String, e.sessionId = some sid → (processQueue e is).queue ≠ [] →
      ∃ d : Progress, (processQueue e is).store = some d ∧ d.sessionId = sid ∧
        d.queue = (processQueue e is).queue ∧ d.isActive = false) := by
  constructor
  · intro hqe
    have hq : (runIters e is).queue = [] := by
      rw [← finish_queue]; exact hqe
    exact finish_store_empty hq
  · intro sid hsid hne
    have hq : (runIters e is).queue ≠ [] := by
      rw [← finish_queue]; exact hne
    have hsid2 : (runIters e is).sessionId = some sid := by
      rw [(runIters_frame is e).2, hsid]
    rw [show (processQueue e is).store
        = saveProgress { runIters e is with isPlacing := false }
      from finish_store_nonempty hq]
    rw [saveProgress_of_some
      (show ({ runIters e is with isPlacing := false } : Embedder).sessionId = some sid
        from hsid2)]
    refine ⟨_, rfl, rfl, ?_, rfl⟩
    exact (finish_queue _).symm

/-- Witness for C6 at a concrete state with a pending pixel. -/
theorem C6_exit_checkpoint_witness :
    (processQueue xC6 []).queue ≠ [] ∧
    ∃ d : Progress, (processQueue xC6 []).store = some d ∧ d.sessionId = "embed_1" ∧
      d.queue = (processQueue xC6 []).queue ∧ d.isActive = false :=
  ⟨by decide, (C6_exit_checkpoint xC6 []).2 "embed_1" rfl (by decide)⟩

/-- C7 (amended): resuming from a fresh checkpoint whose pending queue is
empty immediately returns `false` without dispatching any operation, and
leaves the embedder state — including the stored checkpoint — completely
unchanged.  The stored record is NOT purged, contrary to the claim (see the
counterexample). -/
theorem C7_resume_empty_checkpoint (e : Embedder) (d : Progress) (proceed : Bool)
    (is : List StepIn) (hst : e.store = some d) (hq : d.queue = [])
    (hfresh : e.clock - d.timestamp ≤ expiryMs) :
    resumeEmbedding e proceed is = (e, false) := by
  have hlp : loadProgress e = (e, some d) := by
    unfold loadProgress
    rw [hst]
    dsimp only
    rw [if_neg (by omega)]
  unfold resumeEmbedding
  rw [hlp]
  dsimp only
  rw [if_pos (by rw [hq]; rfl)]

/-- Counterexample to C7 as stated: on a fresh empty-queue checkpoint,
`resumeEmbedding` returns `false` and the record is still in the store — it
is not purged. -/
theorem C7_resume_empty_checkpoint_counterexample :
    (resumeEmbedding xC7 true []).2 = false ∧
    (resumeEmbedding xC7 true []).1.store = some xC7d := by
  decide

/-- Witness for the amended C7 at the same concrete state. -/
theorem C7_resume_empty_checkpoint_witness :
    resumeEmbedding xC7 true [] = (xC7, false) :=
  C7_resume_empty_checkpoint xC7 xC7d true [] rfl rfl (by decide)

/-- C8 (amended): `getStatus` computes the status record from the state and
performs exactly two side effects, both inherited from the methods it calls:
`getCurrentCredits` overwrites the cached `currentCredits` field when the DOM
scrape finds a value, and `loadProgress` purges the checkpoint exactly when it
has expired.  Every other field — queue, counters, session, limiter logs,
clock — is left unchanged, and the status record reports the state
faithfully.  It is NOT fully side-effect-free as claimed (see the
counterexample). -/
theorem C8_getStatus_effects (e : Embedder) (dom : Option Int) :
    (∀ d : Progress, e.store = some d → expiryMs < e.clock - d.timestamp →
      getStatus e dom =
        ({ e with currentCredits := if dom.isSome then dom else e.currentCredits,
                  store := none },
         statusOf e dom false)) ∧
    ((∀ d : Progress, e.store = some d → e.clock - d.timestamp ≤ expiryMs) →
      getStatus e dom =
        ({ e with currentCredits := if dom.isSome then dom else e.currentCredits },
         statusOf e dom e.store.isSome)) := by
  obtain ⟨q, ip, pp, er, cc, sid, op, tier, bt, rt, lrt, st, ck, sd, rc⟩ := e
  constructor
  · intro d hst hexp
    dsimp only at hst hexp
    subst hst
    cases dom with
    | none =>
      unfold getStatus getCurrentCredits loadProgress statusOf
      dsimp only
      rw [if_pos hexp]
      exact rfl
    | some v =>
      unfold getStatus getCurrentCredits loadProgress statusOf
      dsimp only
      rw [if_pos hexp]
      exact rfl
  · intro hfresh
    rcases st with _ | d
    · cases dom with
      | none => exact rfl
      | some v => exact rfl
    · have hf : ck - d.timestamp ≤ expiryMs := hfresh d rfl
      cases dom with
      | none =>
        unfold getStatus getCurrentCredits loadProgress statusOf
        dsimp only
        rw [if_neg (not_lt.mpr hf)]
        exact rfl
      | some v =>
        unfold getStatus getCurrentCredits loadProgress statusOf
        dsimp only
        rw [if_neg (not_lt.mpr hf)]
        exact rfl

/-- Witness for the amended C8: on the concrete expired-checkpoint state the
first branch of the theorem applies and purges the store. -/
theorem C8_getStatus_effects_witness :
    getStatus xC8 none =
      ({ xC8 with
          currentCredits := if (none : Option Int).isSome then none
                            else xC8.currentCredits,
          store := none },
       statusOf xC8 none false) :=
  (C8_getStatus_effects xC8 none).1 _ rfl (by decide)

/-- Counterexample to C8 as stated: on a state holding an expired checkpoint,
`getStatus` changes the embedder state — it purges the stored record. -/
theorem C8_getStatus_counterexample :
    (getStatus xC8 none).1 ≠ xC8 ∧ (getStatus xC8 none).1.store = none ∧
    xC8.store ≠ none := by
  decide

/-- C9: at every loop-iteration boundary of a dispatch run (after any prefix
of the iteration inputs), the burst-window log holds at most `burstLimit`
(15) timestamps. -/
theorem C9_burst_log_bounded (e₀ : Embedder) (pixels : List Pixel) (sid : String)
    (is : List StepIn) (hv : ∀ i ∈ is, 50 ≤ i.jitter ∧ 0 ≤ i.latency) (k : Nat) :
    (runIters (embedImageStart e₀ pixels sid) (is.take k)).burstTracker.length
      ≤ burstLimit :=
  (runIters_inv (is.take k) (Inv_embedImageStart e₀ pixels sid)
    (fun i hi => hv i (List.take_subset k is hi))).bt_len

/-- Witness for C9 at a concrete run prefix. -/
theorem C9_burst_log_bounded_witness :
    (runIters (embedImageStart (mkEmbedder 1000000) (wpix 20) "embed_1")
        ((wok 20).take 16)).burstTracker.length ≤ burstLimit :=
  C9_burst_log_bounded (mkEmbedder 1000000) (wpix 20) "embed_1" (wok 20)
    (by decide) 16

/-- C10: when no session exists (`sessionId` is unset), `saveProgress` writes
nothing to the checkpoint store; and `clearSession` resets `sessionId`, so a
subsequent `saveProgress` also writes nothing (the store stays cleared). -/
theorem C10_save_noop (e : Embedder) (h : e.sessionId = none) :
    saveProgress e = e.store ∧ (clearSession e).sessionId = none ∧
    saveProgress (clearSession e) = none :=
  ⟨saveProgress_of_none h, rfl, rfl⟩

/-- Witness for C10 at a freshly constructed embedder. -/
theorem C10_save_noop_witness :
    saveProgress (mkEmbedder 12345) = (mkEmbedder 12345).store ∧
    (clearSession (mkEmbedder 12345)).sessionId = none ∧
    saveProgress (clearSession (mkEmbedder 12345)) = none :=
  C10_save_noop (mkEmbedder 12345) rfl

end Solgrid
